import Mathlib

set_option autoImplicit false

/-!
Verification of the deployment-block locator of `wagmi-extended`
(`src/fetch-functions` deployment-block module).

The module finds the earliest block at which an EVM contract has bytecode,
via an exponential descent to a no-code lower bound followed by binary
search, and caches the result in a two-tier cache (TanStack query cache +
`localStorage`).  Block numbers are JS `bigint`s; every value the module
manipulates is a non-negative block count, so blocks are embedded as `Nat`
(on the non-negative inputs the claims quantify over, JS bigint arithmetic
and the `Nat` renderings below agree: each subtraction in the source is
guarded by a comparison making it non-negative).
-/

/-- A single oracle interaction: the chain-head lookup (`getBlockNumber`) or a
code-presence probe (`getCode`) at a given block. -/
inductive OracleCall where
  | head : OracleCall
  | codeAt : Nat → OracleCall
deriving DecidableEq, Repr

/-- Failure modes of the locator, per the error taxonomy of the design:
`NotDeployed` (no code at the chain head), `OracleError` (a `getCode` RPC
transport failure, rethrown unchanged), `InvalidQuery` (empty address,
rejected up front). -/
inductive XErr where
  | NotDeployed : XErr
  | OracleError : XErr
  | InvalidQuery : XErr
deriving DecidableEq, Repr

/-- The code-presence oracle (the `viem` public client): a chain head and a
`getCode` answer per block.  `getCode b = none` models a failed RPC call
(transport error thrown to the caller); `some none` models `undefined`
(no code); `some (some s)` is the returned hex byte string. -/
structure Rpc where
  latest : Nat
  getCode : Nat → Option (Option String)

/-- Embedding of `hasCodeAtX` (part_000 lines 90-99): converts the `getCode`
answer to code presence via JS `!!code && code !== "0x"` (so `undefined`,
the empty string and the placeholder `"0x"` all mean "no code").
`none` propagates an RPC failure. -/
def hasCodeAtX (R : Rpc) (b : Nat) : Option Bool :=
  match R.getCode b with
  | none => none
  | some none => some false
  | some (some s) => some (s != "" && s != "0x")

/-- Embedding of the exponential-descent loop of `findDeploymentBlockRpcX`
(part_000 lines 132-146): `lo` is the assumed no-code bound, `hi` a block
known to have code, `step` doubles each iteration.  The `while` loop is
rendered with explicit fuel; `none` means the fuel ran out mid-loop, which
`descentLoop_isSome` rules out for fuel at least `hi - lo`.  The result
carries the final `(lo, hi)` pair and the list of blocks probed. -/
def descentLoop (R : Rpc) : Nat → Nat → Nat → Nat →
    Option (Except XErr (Nat × Nat) × List OracleCall)
  | 0, lo, hi, step =>
    if hi - step > lo then none else some (.ok (lo, hi), [])
  | fuel + 1, lo, hi, step =>
    if hi - step > lo then
      match hasCodeAtX R (hi - step) with
      | none => some (.error .OracleError, [.codeAt (hi - step)])
      | some true =>
        match descentLoop R fuel lo (hi - step) (step * 2) with
        | none => none
        | some (r, ps) => some (r, .codeAt (hi - step) :: ps)
      | some false => some (.ok (hi - step, hi), [.codeAt (hi - step)])
    else some (.ok (lo, hi), [])

/-- Embedding of the binary-search loop of `findDeploymentBlockRpcX`
(part_000 lines 148-154): narrows `(lo, hi]` to the first block with code,
probing `mid = lo + (hi - lo) / 2` while `lo + 1 < hi`.  Fueled like
`descentLoop`; `binarySearchLoop_isSome` rules out fuel exhaustion. -/
def binarySearchLoop (R : Rpc) : Nat → Nat → Nat →
    Option (Except XErr (Nat × Nat) × List OracleCall)
  | 0, lo, hi =>
    if lo + 1 < hi then none else some (.ok (lo, hi), [])
  | fuel + 1, lo, hi =>
    if lo + 1 < hi then
      match hasCodeAtX R (lo + (hi - lo) / 2) with
      | none => some (.error .OracleError, [.codeAt (lo + (hi - lo) / 2)])
      | some true =>
        match binarySearchLoop R fuel lo (lo + (hi - lo) / 2) with
        | none => none
        | some (r, ps) => some (r, .codeAt (lo + (hi - lo) / 2) :: ps)
      | some false =>
        match binarySearchLoop R fuel (lo + (hi - lo) / 2) hi with
        | none => none
        | some (r, ps) => some (r, .codeAt (lo + (hi - lo) / 2) :: ps)
    else some (.ok (lo, hi), [])

/-- Body of `findDeploymentBlockRpcX` after the head check and floor
shortcut: descent from `(floor, latest)` with initial step 1, then binary
search on the resulting interval; the answer is the final `hi`.  `log` is
the list of oracle calls already issued by the preceding checks. -/
def searchPhase (R : Rpc) (floor : Nat) (log : List OracleCall) :
    Option (Except XErr Nat × List OracleCall) :=
  match descentLoop R (R.latest - floor) floor R.latest 1 with
  | none => none
  | some (.error e, ps) => some (.error e, log ++ ps)
  | some (.ok (lo, hi), ps) =>
    match binarySearchLoop R (hi - lo) lo hi with
    | none => none
    | some (.error e, qs) => some (.error e, log ++ ps ++ qs)
    | some (.ok (_, hi2), qs) => some (.ok hi2, log ++ ps ++ qs)

/-- Embedding of `findDeploymentBlockRpcX` (part_000 lines 112-155):
chain-head lookup, head code check (failing with `NotDeployed` when absent),
the `floor > 0` shortcut, then descent and binary search.  Alongside the
result it returns the full list of oracle calls issued, in order. -/
def findDeploymentBlockRpcX (R : Rpc) (floor : Nat) :
    Option (Except XErr Nat × List OracleCall) :=
  match hasCodeAtX R R.latest with
  | none => some (.error .OracleError, [.head, .codeAt R.latest])
  | some false => some (.error .NotDeployed, [.head, .codeAt R.latest])
  | some true =>
    if floor > 0 then
      match hasCodeAtX R floor with
      | none => some (.error .OracleError, [.head, .codeAt R.latest, .codeAt floor])
      | some true => some (.ok floor, [.head, .codeAt R.latest, .codeAt floor])
      | some false => searchPhase R floor [.head, .codeAt R.latest, .codeAt floor]
    else searchPhase R floor [.head, .codeAt R.latest]

/-- Convenience oracle with no transport failures: code presence is decided
by the Boolean predicate `present`. -/
def oracleOf (latest : Nat) (present : Nat → Bool) : Rpc where
  latest := latest
  getCode := fun b => some (if present b then some "0x6001" else none)

theorem hasCodeAtX_oracleOf (latest : Nat) (present : Nat → Bool) (b : Nat) :
    hasCodeAtX (oracleOf latest present) b = some (present b) := by
  unfold hasCodeAtX oracleOf
  by_cases h : present b <;> simp [h]

theorem descentLoop_isSome (R : Rpc) :
    ∀ fuel lo hi step : Nat, 0 < step → hi - lo ≤ fuel →
    (descentLoop R fuel lo hi step).isSome := by
  intro fuel
  induction fuel with
  | zero =>
    intro lo hi step hs hf
    unfold descentLoop
    rw [if_neg (by omega)]
    simp
  | succ n ih =>
    intro lo hi step hs hf
    unfold descentLoop
    by_cases h : hi - step > lo
    · rw [if_pos h]
      match hc : hasCodeAtX R (hi - step) with
      | none => simp
      | some true =>
        have hrec := ih lo (hi - step) (step * 2) (by omega) (by omega)
        match hd : descentLoop R n lo (hi - step) (step * 2) with
        | none => rw [hd] at hrec; simp at hrec
        | some (r, ps) => simp
      | some false => simp
    · rw [if_neg h]
      simp

theorem binarySearchLoop_isSome (R : Rpc) :
    ∀ fuel lo hi : Nat, hi - lo ≤ fuel →
    (binarySearchLoop R fuel lo hi).isSome := by
  intro fuel
  induction fuel with
  | zero =>
    intro lo hi hf
    unfold binarySearchLoop
    rw [if_neg (by omega)]
    simp
  | succ n ih =>
    intro lo hi hf
    unfold binarySearchLoop
    by_cases h : lo + 1 < hi
    · rw [if_pos h]
      match hc : hasCodeAtX R (lo + (hi - lo) / 2) with
      | none => simp
      | some true =>
        have hrec := ih lo (lo + (hi - lo) / 2) (by omega)
        match hd : binarySearchLoop R n lo (lo + (hi - lo) / 2) with
        | none => rw [hd] at hrec; simp at hrec
        | some (r, ps) => simp
      | some false =>
        have hrec := ih (lo + (hi - lo) / 2) hi (by omega)
        match hd : binarySearchLoop R n (lo + (hi - lo) / 2) hi with
        | none => rw [hd] at hrec; simp at hrec
        | some (r, ps) => simp
    · rw [if_neg h]
      simp

theorem searchPhase_isSome (R : Rpc) (floor : Nat) (log : List OracleCall) :
    (searchPhase R floor log).isSome := by
  unfold searchPhase
  have hd := descentLoop_isSome R (R.latest - floor) floor R.latest 1 (by omega) (le_refl _)
  match h : descentLoop R (R.latest - floor) floor R.latest 1 with
  | none => rw [h] at hd; simp at hd
  | some (.error e, ps) => simp
  | some (.ok (lo, hi), ps) =>
    have hb := binarySearchLoop_isSome R (hi - lo) lo hi (le_refl _)
    match h2 : binarySearchLoop R (hi - lo) lo hi with
    | none => rw [h2] at hb; simp at hb
    | some (.error e, qs) => simp [h2]
    | some (.ok (l2, h2v), qs) => simp [h2]

/-- C9: for every oracle (every pattern of has-code / no-code / failing
answers) and every floor, the search terminates: the fueled rendering of the
exponential-descent loop and of the binary-search loop never exhausts its
fuel (each descent iteration moves `hi` down by at least one, and each
binary-search iteration strictly shrinks `hi - lo`), so
`findDeploymentBlockRpcX` always produces an answer.  This covers, in
particular, every floor with `0 ≤ floor ≤ latest`. -/
theorem search_terminates (R : Rpc) (floor : Nat) :
    (findDeploymentBlockRpcX R floor).isSome := by
  unfold findDeploymentBlockRpcX
  match h : hasCodeAtX R R.latest with
  | none => simp
  | some false => simp
  | some true =>
    by_cases hf : floor > 0
    · rw [if_pos hf]
      match h2 : hasCodeAtX R floor with
      | none => simp
      | some true => simp
      | some false => exact searchPhase_isSome R floor _
    · rw [if_neg hf]
      exact searchPhase_isSome R floor _

/-- C3: when the oracle reports no code at the chain head, the search fails
with `NotDeployed` having issued exactly the chain-head lookup and the one
code-presence check at the head — no further oracle calls. -/
theorem notDeployed_fails_head_only (R : Rpc) (floor : Nat)
    (hhead : hasCodeAtX R R.latest = some false) :
    findDeploymentBlockRpcX R floor =
      some (.error .NotDeployed, [.head, .codeAt R.latest]) := by
  unfold findDeploymentBlockRpcX
  rw [hhead]

/-- Witness for C3 at a concrete input: an oracle with no code anywhere,
chain head 7, floor 0. -/
theorem notDeployed_fails_head_only_witness :
    findDeploymentBlockRpcX (oracleOf 7 (fun _ => false)) 0 =
      some (.error .NotDeployed, [.head, .codeAt 7]) :=
  notDeployed_fails_head_only (oracleOf 7 (fun _ => false)) 0 (by rfl)

/-- C2 counterexample: the claim includes `floor = 0`, but the shortcut in
the source requires `floor > 0n`.  With code present at every block
(including block 0) on a chain with head 2 and `floor = 0`, the search
returns block 1 — not `floor = 0` — and issues three oracle calls, not two. -/
theorem floor_zero_shortcut_counterexample :
    hasCodeAtX (oracleOf 2 (fun _ => true)) 0 = some true ∧
    findDeploymentBlockRpcX (oracleOf 2 (fun _ => true)) 0 =
      some (.ok 1, [.head, .codeAt 2, .codeAt 1]) ∧
    (1 : Nat) ≠ 0 := by
  refine ⟨by rfl, by rfl, by omega⟩

/-- C2 amended: for every query with `floor > 0` and code present at
`floor` (and at the head), the search returns `floor` itself after exactly
one code-presence probe beyond the head check — even when the true earliest
code block lies strictly below `floor`. -/
theorem floor_shortcut_returns_floor (R : Rpc) (floor : Nat) (hf : 0 < floor)
    (hhead : hasCodeAtX R R.latest = some true)
    (hfloor : hasCodeAtX R floor = some true) :
    findDeploymentBlockRpcX R floor =
      some (.ok floor, [.head, .codeAt R.latest, .codeAt floor]) := by
  unfold findDeploymentBlockRpcX
  rw [hhead, if_pos hf, hfloor]

/-- Witness for C2 (amended) at a concrete input: code present from block 3
onward, head 10, floor 5 — the true earliest code block 3 lies strictly
below the returned floor 5. -/
theorem floor_shortcut_returns_floor_witness :
    findDeploymentBlockRpcX (oracleOf 10 (fun b => decide (3 ≤ b))) 5 =
      some (.ok 5, [.head, .codeAt 10, .codeAt 5]) :=
  floor_shortcut_returns_floor (oracleOf 10 (fun b => decide (3 ≤ b))) 5
    (by omega) (by rfl) (by rfl)

theorem descentLoop_bounds (R : Rpc) :
    ∀ fuel lo hi step lo2 hi2 ps, 0 < step → lo < hi →
    descentLoop R fuel lo hi step = some (.ok (lo2, hi2), ps) →
    lo ≤ lo2 ∧ lo2 < hi2 ∧ hi2 ≤ hi := by
  intro fuel
  induction fuel with
  | zero =>
    intro lo hi step lo2 hi2 ps hs hlh h
    unfold descentLoop at h
    by_cases hc : hi - step > lo
    · rw [if_pos hc] at h; exact absurd h (by simp)
    · rw [if_neg hc] at h
      simp at h
      obtain ⟨⟨h1, h2⟩, _⟩ := h
      omega
  | succ n ih =>
    intro lo hi step lo2 hi2 ps hs hlh h
    unfold descentLoop at h
    by_cases hc : hi - step > lo
    · rw [if_pos hc] at h
      match hcode : hasCodeAtX R (hi - step) with
      | none => rw [hcode] at h; exact absurd h (by simp)
      | some true =>
        rw [hcode] at h
        match hd : descentLoop R n lo (hi - step) (step * 2) with
        | none => rw [hd] at h; exact absurd h (by simp)
        | some (r, ps2) =>
          rw [hd] at h
          simp at h
          obtain ⟨hr, _⟩ := h
          subst hr
          have := ih lo (hi - step) (step * 2) lo2 hi2 ps2 (by omega) (by omega) hd
          omega
      | some false =>
        rw [hcode] at h
        simp at h
        obtain ⟨⟨h1, h2⟩, _⟩ := h
        omega
    · rw [if_neg hc] at h
      simp at h
      obtain ⟨⟨h1, h2⟩, _⟩ := h
      omega

theorem binarySearchLoop_bounds (R : Rpc) :
    ∀ fuel lo hi lo2 hi2 ps, lo < hi →
    binarySearchLoop R fuel lo hi = some (.ok (lo2, hi2), ps) →
    lo ≤ lo2 ∧ lo2 < hi2 ∧ hi2 ≤ hi := by
  intro fuel
  induction fuel with
  | zero =>
    intro lo hi lo2 hi2 ps hlh h
    unfold binarySearchLoop at h
    by_cases hc : lo + 1 < hi
    · rw [if_pos hc] at h; exact absurd h (by simp)
    · rw [if_neg hc] at h
      simp at h
      obtain ⟨⟨h1, h2⟩, _⟩ := h
      omega
  | succ n ih =>
    intro lo hi lo2 hi2 ps hlh h
    unfold binarySearchLoop at h
    by_cases hc : lo + 1 < hi
    · rw [if_pos hc] at h
      match hcode : hasCodeAtX R (lo + (hi - lo) / 2) with
      | none => rw [hcode] at h; exact absurd h (by simp)
      | some true =>
        rw [hcode] at h
        match hd : binarySearchLoop R n lo (lo + (hi - lo) / 2) with
        | none => rw [hd] at h; exact absurd h (by simp)
        | some (r, ps2) =>
          rw [hd] at h
          simp at h
          obtain ⟨hr, _⟩ := h
          subst hr
          have := ih lo (lo + (hi - lo) / 2) lo2 hi2 ps2 (by omega) hd
          omega
      | some false =>
        rw [hcode] at h
        match hd : binarySearchLoop R n (lo + (hi - lo) / 2) hi with
        | none => rw [hd] at h; exact absurd h (by simp)
        | some (r, ps2) =>
          rw [hd] at h
          simp at h
          obtain ⟨hr, _⟩ := h
          subst hr
          have := ih (lo + (hi - lo) / 2) hi lo2 hi2 ps2 (by omega) hd
          omega
    · rw [if_neg hc] at h
      simp at h
      obtain ⟨⟨h1, h2⟩, _⟩ := h
      omega

theorem descentLoop_monotone (R : Rpc) (B : Nat)
    (hcode : ∀ b, b ≤ R.latest → hasCodeAtX R b = some (decide (B ≤ b))) :
    ∀ fuel lo hi step, 0 < step → hi - lo ≤ fuel → lo < B → B ≤ hi → hi ≤ R.latest →
    ∃ lo2 hi2 ps, descentLoop R fuel lo hi step = some (.ok (lo2, hi2), ps) ∧
      lo2 < B ∧ B ≤ hi2 ∧ hi2 ≤ R.latest := by
  intro fuel
  induction fuel with
  | zero =>
    intro lo hi step hs hf hlo hhi hlat
    refine ⟨lo, hi, [], ?_, hlo, hhi, hlat⟩
    unfold descentLoop
    rw [if_neg (by omega)]
  | succ n ih =>
    intro lo hi step hs hf hlo hhi hlat
    by_cases hc : hi - step > lo
    · have hprobe : hasCodeAtX R (hi - step) = some (decide (B ≤ hi - step)) :=
        hcode (hi - step) (by omega)
      by_cases hB : B ≤ hi - step
      · obtain ⟨lo2, hi2, ps, hd, h1, h2, h3⟩ :=
          ih lo (hi - step) (step * 2) (by omega) (by omega) hlo hB (by omega)
        refine ⟨lo2, hi2, .codeAt (hi - step) :: ps, ?_, h1, h2, h3⟩
        unfold descentLoop
        rw [if_pos hc, hprobe, decide_eq_true hB, hd]
      · refine ⟨hi - step, hi, [.codeAt (hi - step)], ?_, by omega, hhi, hlat⟩
        unfold descentLoop
        rw [if_pos hc, hprobe, decide_eq_false hB]
    · refine ⟨lo, hi, [], ?_, hlo, hhi, hlat⟩
      unfold descentLoop
      rw [if_neg hc]

theorem binarySearchLoop_monotone (R : Rpc) (B : Nat)
    (hcode : ∀ b, b ≤ R.latest → hasCodeAtX R b = some (decide (B ≤ b))) :
    ∀ fuel lo hi, hi - lo ≤ fuel → lo < B → B ≤ hi → hi ≤ R.latest →
    ∃ ps, binarySearchLoop R fuel lo hi = some (.ok (B - 1, B), ps) := by
  intro fuel
  induction fuel with
  | zero =>
    intro lo hi hf hlo hhi hlat
    refine ⟨[], ?_⟩
    unfold binarySearchLoop
    rw [if_neg (by omega)]
    have hl : lo = B - 1 := by omega
    have hh : hi = B := by omega
    rw [hl, hh]
  | succ n ih =>
    intro lo hi hf hlo hhi hlat
    by_cases hc : lo + 1 < hi
    · have hprobe : hasCodeAtX R (lo + (hi - lo) / 2) =
          some (decide (B ≤ lo + (hi - lo) / 2)) := hcode _ (by omega)
      by_cases hB : B ≤ lo + (hi - lo) / 2
      · obtain ⟨ps, hrec⟩ := ih lo (lo + (hi - lo) / 2) (by omega) hlo hB (by omega)
        refine ⟨.codeAt (lo + (hi - lo) / 2) :: ps, ?_⟩
        unfold binarySearchLoop
        rw [if_pos hc, hprobe, decide_eq_true hB, hrec]
      · obtain ⟨ps, hrec⟩ := ih (lo + (hi - lo) / 2) hi (by omega) (by omega) hhi hlat
        refine ⟨.codeAt (lo + (hi - lo) / 2) :: ps, ?_⟩
        unfold binarySearchLoop
        rw [if_pos hc, hprobe, decide_eq_false hB, hrec]
    · refine ⟨[], ?_⟩
      unfold binarySearchLoop
      rw [if_neg hc]
      have hl : lo = B - 1 := by omega
      have hh : hi = B := by omega
      rw [hl, hh]

/-- C1: for every oracle whose code presence is monotonic with deployment
boundary `B` (absent strictly below `B`, present from `B` up to the chain
head) with `0 < B ≤ latest` — so code is present at the head and absent at
block 0 — the search with `floor = 0` returns exactly `B`, the unique block
with code absent at `B - 1` and present at `B`. -/
theorem findDeploymentBlock_finds_unique_boundary (R : Rpc) (B : Nat)
    (hB0 : 0 < B) (hBlat : B ≤ R.latest)
    (hcode : ∀ b, b ≤ R.latest → hasCodeAtX R b = some (decide (B ≤ b))) :
    (findDeploymentBlockRpcX R 0).map Prod.fst = some (.ok B) := by
  have hhead : hasCodeAtX R R.latest = some true := by
    rw [hcode R.latest (le_refl _), decide_eq_true hBlat]
  obtain ⟨lo2, hi2, ps, hd, h1, h2, h3⟩ :=
    descentLoop_monotone R B hcode (R.latest - 0) 0 R.latest 1
      (by omega) (by omega) hB0 hBlat (le_refl _)
  obtain ⟨qs, hb⟩ :=
    binarySearchLoop_monotone R B hcode (hi2 - lo2) lo2 hi2 (le_refl _) h1 h2 h3
  unfold findDeploymentBlockRpcX searchPhase
  simp only [hhead, hd, if_neg (by omega : ¬ (0:Nat) > 0)]
  rw [hb]
  simp

/-- Witness for C1 at the scenario of the claim: chain head 1,000,000, code
present exactly from block 500,000 onward; the search from floor 0 returns
exactly 500,000. -/
theorem findDeploymentBlock_finds_unique_boundary_witness :
    (findDeploymentBlockRpcX (oracleOf 1000000 (fun b => decide (500000 ≤ b))) 0).map
      Prod.fst = some (.ok 500000) :=
  findDeploymentBlock_finds_unique_boundary
    (oracleOf 1000000 (fun b => decide (500000 ≤ b))) 500000
    (by omega) (by decide)
    (fun b _ => hasCodeAtX_oracleOf 1000000 (fun b => decide (500000 ≤ b)) b)

theorem searchPhase_ok_range (R : Rpc) (floor v : Nat) (log : List OracleCall)
    (hfl : floor < R.latest)
    (h : (searchPhase R floor log).map Prod.fst = some (.ok v)) :
    floor < v ∧ v ≤ R.latest := by
  unfold searchPhase at h
  match hd : descentLoop R (R.latest - floor) floor R.latest 1 with
  | none => rw [hd] at h; exact absurd h (by simp)
  | some (.error e, ps) => rw [hd] at h; exact absurd h (by simp)
  | some (.ok (lo, hi), ps) =>
    simp only [hd] at h
    have hdb := descentLoop_bounds R (R.latest - floor) floor R.latest 1 lo hi ps
      (by omega) hfl hd
    match hb : binarySearchLoop R (hi - lo) lo hi with
    | none => rw [hb] at h; exact absurd h (by simp)
    | some (.error e, qs) => rw [hb] at h; exact absurd h (by simp)
    | some (.ok (l2, h2), qs) =>
      rw [hb] at h
      have hbb := binarySearchLoop_bounds R (hi - lo) lo hi l2 h2 qs (by omega) hb
      simp at h
      omega

/-- C10 counterexample: the claim says the function never returns block 0,
naming the genesis-contract case (code present at every block, floor 0) as
returning 1.  On a chain whose head is block 0 with code present there, the
search with floor 0 skips the shortcut (floor is 0), both loops exit
immediately, and the function returns block 0 with `result = floor = 0`,
contradicting `floor < result`. -/
theorem genesis_head_returns_zero_counterexample :
    (findDeploymentBlockRpcX (oracleOf 0 (fun _ => true)) 0).map Prod.fst =
      some (.ok 0) ∧ ¬ ((0 : Nat) < 0) := by
  exact ⟨by rfl, by omega⟩

/-- C10 amended: whenever the floor shortcut does not fire (floor 0, or no
code at floor) and additionally `floor < latest` (which the head-0 / floor
at-or-above-head counterexample forces), a successfully returned value `v`
satisfies `floor < v ≤ latest`; in particular with floor 0 the function
never returns block 0 when the head is positive. -/
theorem result_in_range (R : Rpc) (floor v : Nat)
    (hfl : floor < R.latest)
    (hshort : floor = 0 ∨ hasCodeAtX R floor = some false)
    (h : (findDeploymentBlockRpcX R floor).map Prod.fst = some (.ok v)) :
    floor < v ∧ v ≤ R.latest := by
  unfold findDeploymentBlockRpcX at h
  match hhead : hasCodeAtX R R.latest with
  | none => rw [hhead] at h; exact absurd h (by simp)
  | some false => rw [hhead] at h; exact absurd h (by simp)
  | some true =>
    rw [hhead] at h
    by_cases hf : floor > 0
    · rw [if_pos hf] at h
      have hnc : hasCodeAtX R floor = some false := by
        rcases hshort with h0 | hc
        · omega
        · exact hc
      rw [hnc] at h
      exact searchPhase_ok_range R floor v _ hfl h
    · rw [if_neg hf] at h
      exact searchPhase_ok_range R floor v _ hfl h

/-- Witness for C10 (amended) at a concrete input: chain head 100 with code
present at every block including genesis; the returned block is 1, inside
`(0, 100]`. -/
theorem result_in_range_witness :
    (0 : Nat) < 1 ∧ (1 : Nat) ≤ (oracleOf 100 (fun _ => true)).latest :=
  result_in_range (oracleOf 100 (fun _ => true)) 0 1
    (by decide) (Or.inl rfl) (by rfl)

theorem toNat_charOfNat_of_lt (m : Nat) (h : m < 55296) : (Char.ofNat m).toNat = m := by
  unfold Char.ofNat
  rw [dif_pos (Or.inl h)]
  rfl

theorem charToLower_fixed (c : Char) (h : ¬ (c.toNat ≥ 65 ∧ c.toNat ≤ 90)) :
    Char.toLower c = c := by
  simp only [Char.toLower]
  rw [if_neg h]

theorem charToLower_toNat_not_upper (c : Char) :
    ¬ ((Char.toLower c).toNat ≥ 65 ∧ (Char.toLower c).toNat ≤ 90) := by
  simp only [Char.toLower]
  by_cases h : c.toNat ≥ 65 ∧ c.toNat ≤ 90
  · rw [if_pos h, toNat_charOfNat_of_lt _ (by omega)]
    omega
  · rw [if_neg h]
    exact h

theorem charToLower_idem (c : Char) :
    Char.toLower (Char.toLower c) = Char.toLower c :=
  charToLower_fixed _ (charToLower_toNat_not_upper c)

/-- Model of JS `String.prototype.toLowerCase` as used on the Basic-Latin
hex addresses this module canonicalizes: lowercase every character. -/
def toLowerCase (s : String) : String := ⟨s.data.map Char.toLower⟩

theorem listMap_toLower_idem (l : List Char) :
    (l.map Char.toLower).map Char.toLower = l.map Char.toLower := by
  induction l with
  | nil => rfl
  | cons c cs ih => simp only [List.map_cons, ih, charToLower_idem]

theorem toLowerCase_idem (s : String) :
    toLowerCase (toLowerCase s) = toLowerCase s :=
  congrArg String.mk (listMap_toLower_idem s.data)

/-- Embedding of `deploymentBlockKey` (part_000 lines 34-38): the TanStack
query key tuple `["deploymentBlock", chainId, address?.toLowerCase(), floor]`
with the possibly-undefined components as `Option`. -/
def deploymentBlockKey (chainId : Option Nat) (address : Option String)
    (floor : Nat) : String × Option Nat × Option String × Nat :=
  ("deploymentBlock", chainId, address.map toLowerCase, floor)

/-- Embedding of `lsKeyForDeploymentBlock` (part_000 lines 45-50): the
stable localStorage key, a colon-delimited string of the fixed namespace
tag, the chain id, the lowercased address and the decimal floor. -/
def lsKeyForDeploymentBlock (chainId : Nat) (address : String) (floor : Nat) :
    String :=
  "wagmi-extended:deploymentBlock:" ++ Nat.repr chainId ++ ":"
    ++ toLowerCase address ++ ":" ++ Nat.repr floor

/-- C6: both cache keys are invariant under lowercasing the address (the
canonicalization happens inside the key builders, before any key is
compared), and the persistent-store key is exactly the colon-delimited
string of the fixed namespace tag, chain id, lowercased address, and
decimal floor. -/
theorem key_canonicalization (chainId : Nat) (address : String) (floor : Nat) :
    deploymentBlockKey (some chainId) (some address) floor =
      deploymentBlockKey (some chainId) (some (toLowerCase address)) floor ∧
    lsKeyForDeploymentBlock chainId address floor =
      lsKeyForDeploymentBlock chainId (toLowerCase address) floor ∧
    lsKeyForDeploymentBlock chainId address floor =
      "wagmi-extended:deploymentBlock:" ++ Nat.repr chainId ++ ":"
        ++ toLowerCase address ++ ":" ++ Nat.repr floor := by
  refine ⟨?_, ?_, rfl⟩
  · unfold deploymentBlockKey
    simp only [Option.map_some', toLowerCase_idem]
  · unfold lsKeyForDeploymentBlock
    rw [toLowerCase_idem]

theorem natToDigitsCore10_append :
    ∀ fuel n : Nat, ∀ ds : List Char,
    Nat.toDigitsCore 10 fuel n ds = Nat.toDigitsCore 10 fuel n [] ++ ds := by
  intro fuel
  induction fuel with
  | zero => intro n ds; rfl
  | succ f ih =>
    intro n ds
    simp only [Nat.toDigitsCore]
    by_cases h : n / 10 = 0
    · rw [if_pos h, if_pos h]
      rfl
    · rw [if_neg h, if_neg h]
      rw [ih (n / 10) [Nat.digitChar (n % 10)],
        ih (n / 10) (Nat.digitChar (n % 10) :: ds)]
      simp

theorem natToDigitsCore10_fuel :
    ∀ n f1 f2 : Nat, n < f1 → n < f2 →
    Nat.toDigitsCore 10 f1 n [] = Nat.toDigitsCore 10 f2 n [] := by
  intro n
  induction n using Nat.strong_induction_on with
  | _ n ih =>
    intro f1 f2 h1 h2
    match f1, f2 with
    | g1 + 1, g2 + 1 =>
      simp only [Nat.toDigitsCore]
      by_cases h : n / 10 = 0
      · rw [if_pos h, if_pos h]
      · rw [if_neg h, if_neg h]
        rw [natToDigitsCore10_append g1, natToDigitsCore10_append g2]
        have hlt : n / 10 < n := by omega
        rw [ih (n / 10) hlt g1 g2 (by omega) (by omega)]

theorem natToDigits10_lt (n : Nat) (h : n < 10) :
    Nat.toDigits 10 n = [Nat.digitChar n] := by
  unfold Nat.toDigits
  simp only [Nat.toDigitsCore]
  rw [if_pos (by omega), Nat.mod_eq_of_lt h]

theorem natToDigits10_ge (n : Nat) (h : 10 ≤ n) :
    Nat.toDigits 10 n = Nat.toDigits 10 (n / 10) ++ [Nat.digitChar (n % 10)] := by
  unfold Nat.toDigits
  conv_lhs => simp only [Nat.toDigitsCore]
  rw [if_neg (by omega)]
  rw [natToDigitsCore10_append n (n / 10) [Nat.digitChar (n % 10)]]
  have hlt : n / 10 < n := by omega
  rw [natToDigitsCore10_fuel (n / 10) n (n / 10 + 1) hlt (by omega)]

theorem digitChar_toNat (m : Nat) (h : m < 10) :
    (Nat.digitChar m).toNat = 48 + m := by
  interval_cases m <;> decide

theorem digitChar_isDigit (m : Nat) (h : m < 10) :
    (Nat.digitChar m).isDigit = true := by
  interval_cases m <;> decide

theorem natToDigits10_foldl (n : Nat) :
    (Nat.toDigits 10 n).foldl (fun a c => a * 10 + (c.toNat - '0'.toNat)) 0
      = n := by
  induction n using Nat.strong_induction_on with
  | _ n ih =>
    by_cases h : n < 10
    · rw [natToDigits10_lt n h]
      simp only [List.foldl_cons, List.foldl_nil]
      rw [digitChar_toNat n h]
      simp
    · rw [natToDigits10_ge n (by omega), List.foldl_append]
      rw [ih (n / 10) (by omega)]
      simp only [List.foldl_cons, List.foldl_nil]
      rw [digitChar_toNat (n % 10) (by omega)]
      have : ('0').toNat = 48 := by decide
      rw [this]
      omega

theorem natToDigits10_all_isDigit (n : Nat) :
    (Nat.toDigits 10 n).all Char.isDigit = true := by
  induction n using Nat.strong_induction_on with
  | _ n ih =>
    by_cases h : n < 10
    · rw [natToDigits10_lt n h]
      simp [digitChar_isDigit n h]
    · rw [natToDigits10_ge n (by omega)]
      rw [List.all_append]
      simp [ih (n / 10) (by omega), digitChar_isDigit (n % 10) (by omega)]

theorem natToDigits10_ne_nil (n : Nat) : Nat.toDigits 10 n ≠ [] := by
  by_cases h : n < 10
  · rw [natToDigits10_lt n h]; simp
  · rw [natToDigits10_ge n (by omega)]; simp

/-- Decode-encode round trip for the persistent store value format: parsing
the decimal text of a block number returns the block number. -/
theorem toNatQ_natRepr (n : Nat) : (Nat.repr n).toNat? = some n := by
  have hne : Nat.toDigits 10 n ≠ [] := natToDigits10_ne_nil n
  have hall : (Nat.toDigits 10 n).all Char.isDigit = true :=
    natToDigits10_all_isDigit n
  show (List.asString (Nat.toDigits 10 n)).toNat? = some n
  have hdata : (List.asString (Nat.toDigits 10 n)).data = Nat.toDigits 10 n := rfl
  have hemp : (List.asString (Nat.toDigits 10 n)).isEmpty = false := by
    by_cases hb : (List.asString (Nat.toDigits 10 n)).isEmpty
    · exfalso
      apply hne
      have he := (String.isEmpty_iff _).mp hb
      have := congrArg String.data he
      simpa using this
    · simpa using hb
  have hnat : (List.asString (Nat.toDigits 10 n)).isNat = true := by
    unfold String.isNat
    rw [String.all_eq, hemp, hdata, hall]
    rfl
  unfold String.toNat?
  rw [if_pos hnat, String.foldl_eq]
  rw [hdata]
  exact congrArg some (natToDigits10_foldl n)

/-- Model of the browser `localStorage` medium.  `available` is the SSR
guard `canUseBrowserStorage` (part_000 lines 41-42); `entries` the stored
key-value pairs; `readFails` / `writeFails` model `getItem` / `setItem`
throwing (security or quota errors), which the source catches. -/
structure LocalStorage where
  available : Bool
  entries : List (String × String)
  readFails : Bool
  writeFails : Bool
deriving DecidableEq, Repr

/-- Model of `window.localStorage.getItem`: `none` models a thrown storage
error, `some none` a missing key (JS `null`). -/
def lsGetItem (ls : LocalStorage) (k : String) : Option (Option String) :=
  if ls.readFails then none else some (ls.entries.lookup k)

/-- Model of `window.localStorage.setItem`: `none` models a thrown storage
error (state unchanged), otherwise the new store state. -/
def lsSetItem (ls : LocalStorage) (k v : String) : Option LocalStorage :=
  if ls.writeFails then none
  else some { ls with entries := (k, v) :: ls.entries }

/-- Model of JS `BigInt(raw)` on the decimal strings this module writes
(`value.toString()` of a non-negative bigint): parses decimal text;
`none` models the exception thrown on malformed input, which the reader
catches and treats as a miss. -/
def bigIntOfRaw (raw : String) : Option Nat := raw.toNat?

/-- Embedding of `readDeploymentBlockFromLS` (part_000 lines 53-67):
SSR guard, then `getItem` under the stable key; a thrown error, a missing
key, an empty string and a malformed value all yield `none` (the source
returns `undefined` for falsy `raw` and catches all exceptions). -/
def readDeploymentBlockFromLS (ls : LocalStorage) (chainId : Nat)
    (address : String) (floor : Nat) : Option Nat :=
  if !ls.available then none
  else
    match lsGetItem ls (lsKeyForDeploymentBlock chainId address floor) with
    | none => none
    | some none => none
    | some (some raw) => if raw = "" then none else bigIntOfRaw raw

/-- Embedding of `writeDeploymentBlockToLS` (part_000 lines 70-85):
SSR guard, then `setItem` of the decimal text of the value under the stable
key; a thrown error is swallowed, leaving the store unchanged. -/
def writeDeploymentBlockToLS (ls : LocalStorage) (chainId : Nat)
    (address : String) (floor : Nat) (value : Nat) : LocalStorage :=
  if !ls.available then ls
  else
    match lsSetItem ls (lsKeyForDeploymentBlock chainId address floor)
        (Nat.repr value) with
    | none => ls
    | some ls2 => ls2

/-- TanStack query-cache data keyed by `deploymentBlockKey`. -/
abbrev QueryKey := String × Option Nat × Option String × Nat

abbrev MemCache := List (QueryKey × Nat)

/-- Model of `queryClient.setQueryData`: record the value under the key. -/
def setQueryData (mem : MemCache) (k : QueryKey) (v : Nat) : MemCache :=
  (k, v) :: mem

/-- Model of the query-cache read under `staleTime: Infinity`
(`queryConfig.metaDataQuery`): a stored value never goes stale, so a hit is
returned without running the query function. -/
def getQueryData (mem : MemCache) (k : QueryKey) : Option Nat :=
  mem.lookup k

/-- Embedding of the `queryFn` built by `getDeploymentBlockQueryOptionsX`
(part_000 lines 191-217): consult localStorage first (unless disabled), on
a hit return it with no oracle calls; otherwise run the RPC search and,
on success only, persist the result to localStorage.  Returns the result,
the localStorage state after the call, and the oracle calls issued;
`none` is fuel exhaustion of the search, ruled out by `search_terminates`. -/
def queryFn (R : Rpc) (ls : LocalStorage) (chainId : Nat) (address : String)
    (floor : Nat) (disableLocalStorage : Bool) :
    Option (Except XErr Nat × LocalStorage × List OracleCall) :=
  match (if disableLocalStorage then none
    else readDeploymentBlockFromLS ls chainId address floor) with
  | some v => some (.ok v, ls, [])
  | none =>
    match findDeploymentBlockRpcX R floor with
    | none => none
    | some (.error e, calls) => some (.error e, ls, calls)
    | some (.ok d, calls) =>
      some (.ok d,
        (if disableLocalStorage then ls
         else writeDeploymentBlockToLS ls chainId address floor d), calls)

/-- Embedding of `fetchDeploymentBlockX` (part_000 lines 261-299) composed
with TanStack `fetchQuery`: reject an empty address up front (the source
throws before touching client or oracle), seed the query cache from
localStorage (unless disabled), serve a cached value without running the
query function (`staleTime: Infinity`), otherwise run `queryFn`, caching
its result only on success — a thrown error caches nothing.  Returns the
result, both cache tiers after the call, and the oracle calls issued. -/
def fetchDeploymentBlockX (R : Rpc) (mem : MemCache) (ls : LocalStorage)
    (chainId : Nat) (address : String) (floor : Nat)
    (disableLocalStorage : Bool) :
    Option (Except XErr Nat × MemCache × LocalStorage × List OracleCall) :=
  if address = "" then some (.error .InvalidQuery, mem, ls, [])
  else
    match (if disableLocalStorage then mem
      else
        match readDeploymentBlockFromLS ls chainId address floor with
        | some v =>
          setQueryData mem (deploymentBlockKey (some chainId) (some address) floor) v
        | none => mem) with
    | mem1 =>
      match getQueryData mem1 (deploymentBlockKey (some chainId) (some address) floor) with
      | some v => some (.ok v, mem1, ls, [])
      | none =>
        match queryFn R ls chainId address floor disableLocalStorage with
        | none => none
        | some (.error e, ls2, calls) => some (.error e, mem1, ls2, calls)
        | some (.ok v, ls2, calls) =>
          some (.ok v,
            setQueryData mem1 (deploymentBlockKey (some chainId) (some address) floor) v,
            ls2, calls)

/-- A functioning persistent store with no entries. -/
def emptyLS : LocalStorage :=
  { available := true, entries := [], readFails := false, writeFails := false }

theorem natRepr_ne_empty (n : Nat) : Nat.repr n ≠ "" := by
  intro h
  apply natToDigits10_ne_nil n
  have hd := congrArg String.data h
  simpa using hd

theorem readDeploymentBlockFromLS_broken (ls : LocalStorage) (chainId : Nat)
    (address : String) (floor : Nat)
    (hbroken : ls.available = false ∨ ls.readFails = true) :
    readDeploymentBlockFromLS ls chainId address floor = none := by
  unfold readDeploymentBlockFromLS lsGetItem
  rcases hbroken with h | hr
  · simp [h]
  · by_cases ha : ls.available
    · simp [ha, hr]
    · simp [ha]

theorem writeDeploymentBlockToLS_broken (ls : LocalStorage) (chainId : Nat)
    (address : String) (floor v : Nat)
    (hbroken : ls.available = false ∨ ls.writeFails = true) :
    writeDeploymentBlockToLS ls chainId address floor v = ls := by
  unfold writeDeploymentBlockToLS lsSetItem
  rcases hbroken with h | hw
  · simp [h]
  · by_cases ha : ls.available
    · simp [ha, hw]
    · simp [ha]

theorem readDeploymentBlockFromLS_emptyLS (chainId : Nat) (address : String)
    (floor : Nat) :
    readDeploymentBlockFromLS emptyLS chainId address floor = none := by
  rfl

theorem getQueryData_setQueryData (mem : MemCache) (k : QueryKey) (v : Nat) :
    getQueryData (setQueryData mem k v) k = some v := by
  unfold getQueryData setQueryData
  simp [List.lookup]

theorem fetch_same_of_read_none (R : Rpc) (mem : MemCache)
    (ls ls2 : LocalStorage) (chainId : Nat) (address : String) (floor : Nat)
    (dls : Bool)
    (h1 : readDeploymentBlockFromLS ls chainId address floor = none)
    (h2 : readDeploymentBlockFromLS ls2 chainId address floor = none) :
    (fetchDeploymentBlockX R mem ls chainId address floor dls).map
        (fun p => (p.1, p.2.1, p.2.2.2)) =
      (fetchDeploymentBlockX R mem ls2 chainId address floor dls).map
        (fun p => (p.1, p.2.1, p.2.2.2)) := by
  unfold fetchDeploymentBlockX queryFn
  by_cases ha : address = ""
  · rw [if_pos ha, if_pos ha]
    rfl
  · rw [if_neg ha, if_neg ha]
    cases dls with
    | true =>
      simp only [if_true, h1, h2]
      match getQueryData mem (deploymentBlockKey (some chainId) (some address) floor) with
      | some v => rfl
      | none =>
        match findDeploymentBlockRpcX R floor with
        | none => rfl
        | some (.error e, calls) => rfl
        | some (.ok d, calls) => rfl
    | false =>
      simp only [if_false, h1, h2]
      match getQueryData mem (deploymentBlockKey (some chainId) (some address) floor) with
      | some v => rfl
      | none =>
        match findDeploymentBlockRpcX R floor with
        | none => rfl
        | some (.error e, calls) => rfl
        | some (.ok d, calls) => rfl

/-- C7: store unavailability degrades silently, per operation.  When the
persistent storage medium is absent or a read raises, every read behaves
as a cache miss; when the medium is absent or a write raises, every write
is a no-op; and whenever reads miss this way, the storage error is never
surfaced: the result, in-memory cache and oracle traffic of the resolve
are the same as with a functioning store that has no entry for the query. -/
theorem store_unavailable_degrades (R : Rpc) (mem : MemCache)
    (ls : LocalStorage) (chainId : Nat) (address : String) (floor v : Nat)
    (dls : Bool) :
    (ls.available = false ∨ ls.readFails = true →
      readDeploymentBlockFromLS ls chainId address floor = none) ∧
    (ls.available = false ∨ ls.writeFails = true →
      writeDeploymentBlockToLS ls chainId address floor v = ls) ∧
    (ls.available = false ∨ ls.readFails = true →
      (fetchDeploymentBlockX R mem ls chainId address floor dls).map
          (fun p => (p.1, p.2.1, p.2.2.2)) =
        (fetchDeploymentBlockX R mem emptyLS chainId address floor dls).map
          (fun p => (p.1, p.2.1, p.2.2.2))) :=
  ⟨fun hbr => readDeploymentBlockFromLS_broken ls chainId address floor hbr,
   fun hbw => writeDeploymentBlockToLS_broken ls chainId address floor v hbw,
   fun hbr => fetch_same_of_read_none R mem ls emptyLS chainId address floor dls
     (readDeploymentBlockFromLS_broken ls chainId address floor hbr)
     (readDeploymentBlockFromLS_emptyLS chainId address floor)⟩

/-- Witness for C7 at a concrete input: an unavailable store holding a
(stale-looking) entry behaves exactly like the empty functioning store. -/
theorem store_unavailable_degrades_witness :
    readDeploymentBlockFromLS
        { available := false, entries := [("k", "3")], readFails := false,
          writeFails := false } 1 "0xabc" 0 = none ∧
    writeDeploymentBlockToLS
        { available := false, entries := [("k", "3")], readFails := false,
          writeFails := false } 1 "0xabc" 0 9 =
      { available := false, entries := [("k", "3")], readFails := false,
        writeFails := false } ∧
    (fetchDeploymentBlockX (oracleOf 3 (fun _ => true)) []
        { available := false, entries := [("k", "3")], readFails := false,
          writeFails := false } 1 "0xabc" 0 false).map
        (fun p => (p.1, p.2.1, p.2.2.2)) =
      (fetchDeploymentBlockX (oracleOf 3 (fun _ => true)) [] emptyLS
        1 "0xabc" 0 false).map (fun p => (p.1, p.2.1, p.2.2.2)) :=
  ⟨(store_unavailable_degrades (oracleOf 3 (fun _ => true)) []
      { available := false, entries := [("k", "3")], readFails := false,
        writeFails := false } 1 "0xabc" 0 9 false).1 (Or.inl rfl),
   (store_unavailable_degrades (oracleOf 3 (fun _ => true)) []
      { available := false, entries := [("k", "3")], readFails := false,
        writeFails := false } 1 "0xabc" 0 9 false).2.1 (Or.inl rfl),
   (store_unavailable_degrades (oracleOf 3 (fun _ => true)) []
      { available := false, entries := [("k", "3")], readFails := false,
        writeFails := false } 1 "0xabc" 0 9 false).2.2 (Or.inl rfl)⟩

theorem readDeploymentBlockFromLS_write (ls : LocalStorage) (chainId : Nat)
    (address : String) (floor v : Nat) (hav : ls.available = true)
    (hr : ls.readFails = false) (hw : ls.writeFails = false) :
    readDeploymentBlockFromLS (writeDeploymentBlockToLS ls chainId address floor v)
      chainId address floor = some v := by
  have hls : writeDeploymentBlockToLS ls chainId address floor v =
      { ls with entries :=
          (lsKeyForDeploymentBlock chainId address floor, Nat.repr v) :: ls.entries } := by
    unfold writeDeploymentBlockToLS lsSetItem
    rw [hav, hw]
    simp
  rw [hls]
  unfold readDeploymentBlockFromLS lsGetItem
  simp only [hav, hr, Bool.not_true, Bool.false_eq_true, if_false, List.lookup]
  simp only [beq_self_eq_true, if_neg (natRepr_ne_empty v)]
  exact toNatQ_natRepr v

/-- C5: round-trip through the persistent store.  A block value written
under a query's key is stored as its decimal text and decodes back to
exactly the same value; resolving the same query on a fresh (empty)
in-memory cache is served from the store hit: it returns the stored value,
issues no oracle calls, and only seeds the in-memory cache. -/
theorem store_round_trip (R : Rpc) (ls : LocalStorage) (chainId : Nat)
    (address : String) (floor v : Nat) (ha : address ≠ "")
    (hav : ls.available = true) (hr : ls.readFails = false)
    (hw : ls.writeFails = false) :
    readDeploymentBlockFromLS (writeDeploymentBlockToLS ls chainId address floor v)
        chainId address floor = some v ∧
    fetchDeploymentBlockX R [] (writeDeploymentBlockToLS ls chainId address floor v)
        chainId address floor false =
      some (.ok v,
        setQueryData [] (deploymentBlockKey (some chainId) (some address) floor) v,
        writeDeploymentBlockToLS ls chainId address floor v, []) := by
  have hread := readDeploymentBlockFromLS_write ls chainId address floor v hav hr hw
  refine ⟨hread, ?_⟩
  unfold fetchDeploymentBlockX
  rw [if_neg ha]
  simp only [Bool.false_eq_true, if_false, hread, getQueryData_setQueryData]

/-- Witness for C5 at a concrete input: value 42 written for chain 1,
address "0xAbC", floor 0 into the empty functioning store, then resolved
on a fresh in-memory cache. -/
theorem store_round_trip_witness :
    readDeploymentBlockFromLS (writeDeploymentBlockToLS emptyLS 1 "0xAbC" 0 42)
        1 "0xAbC" 0 = some 42 ∧
    fetchDeploymentBlockX (oracleOf 3 (fun _ => true)) []
        (writeDeploymentBlockToLS emptyLS 1 "0xAbC" 0 42) 1 "0xAbC" 0 false =
      some (.ok 42, setQueryData [] (deploymentBlockKey (some 1) (some "0xAbC") 0) 42,
        writeDeploymentBlockToLS emptyLS 1 "0xAbC" 0 42, []) :=
  store_round_trip (oracleOf 3 (fun _ => true)) emptyLS 1 "0xAbC" 0 42
    (by decide) rfl rfl rfl

/-- C4: atomicity on failure.  Whenever the resolve fails — `InvalidQuery`,
`NotDeployed`, or an oracle transport error at any probe — neither cache
tier is modified: the in-memory cache and the persistent store after the
call are exactly the states before it. -/
theorem failed_search_leaves_no_trace (R : Rpc) (mem : MemCache)
    (ls : LocalStorage) (chainId : Nat) (address : String) (floor : Nat)
    (dls : Bool) (e : XErr) (mem2 : MemCache) (ls2 : LocalStorage)
    (calls : List OracleCall)
    (h : fetchDeploymentBlockX R mem ls chainId address floor dls =
      some (.error e, mem2, ls2, calls)) :
    mem2 = mem ∧ ls2 = ls := by
  unfold fetchDeploymentBlockX queryFn at h
  by_cases ha : address = ""
  · rw [if_pos ha] at h
    simp at h
    exact ⟨h.2.1.symm, h.2.2.1.symm⟩
  · rw [if_neg ha] at h
    cases dls with
    | true =>
      simp only [if_true] at h
      match hq : getQueryData mem (deploymentBlockKey (some chainId) (some address) floor) with
      | some v => rw [hq] at h; simp at h
      | none =>
        rw [hq] at h
        match hf : findDeploymentBlockRpcX R floor with
        | none => rw [hf] at h; simp at h
        | some (.error e2, calls2) =>
          rw [hf] at h
          simp at h
          exact ⟨h.2.1.symm, h.2.2.1.symm⟩
        | some (.ok d, calls2) => rw [hf] at h; simp at h
    | false =>
      simp only [Bool.false_eq_true, if_false] at h
      match hread : readDeploymentBlockFromLS ls chainId address floor with
      | some v =>
        rw [hread] at h
        rw [show (match setQueryData mem (deploymentBlockKey (some chainId) (some address) floor) v with
          | mem1 => getQueryData mem1 (deploymentBlockKey (some chainId) (some address) floor)) =
          some v from getQueryData_setQueryData mem _ v] at h
        simp at h
      | none =>
        rw [hread] at h
        match hq : getQueryData mem (deploymentBlockKey (some chainId) (some address) floor) with
        | some v => rw [hq] at h; simp at h
        | none =>
          rw [hq] at h
          match hf : findDeploymentBlockRpcX R floor with
          | none => rw [hf] at h; simp at h
          | some (.error e2, calls2) =>
            rw [hf] at h
            simp at h
            exact ⟨h.2.1.symm, h.2.2.1.symm⟩
          | some (.ok d, calls2) => rw [hf] at h; simp at h

/-- Witness for C4 at a concrete input: a contract with no code at the
chain head fails with `NotDeployed`, and both cache tiers come back
unchanged. -/
theorem failed_search_leaves_no_trace_witness :
    ([] : MemCache) = ([] : MemCache) ∧ emptyLS = emptyLS :=
  failed_search_leaves_no_trace (oracleOf 5 (fun _ => false)) [] emptyLS
    1 "0xabc" 0 false .NotDeployed [] emptyLS [.head, .codeAt 5] (by rfl)

/-- C8 counterexample: the claim covers malformed addresses, but the only
runtime guard in the source is the JS falsiness check `!address`; for the
non-empty malformed address "not-an-address" the request is not rejected:
the chain-head lookup and the head code-presence probe are issued. -/
theorem malformed_address_counterexample :
    fetchDeploymentBlockX (oracleOf 5 (fun _ => false)) [] emptyLS 1
        "not-an-address" 0 false =
      some (.error .NotDeployed, [], emptyLS, [.head, .codeAt 5]) ∧
    ([.head, .codeAt 5] : List OracleCall) ≠ [] := by
  exact ⟨by rfl, by simp⟩

/-- C8 amended: for the empty address (the only address the source's
runtime falsiness guard catches), the request is rejected with an error
before any oracle call: neither the chain-head lookup nor any code-presence
probe is issued, and neither cache tier is touched. -/
theorem empty_address_rejected (R : Rpc) (mem : MemCache) (ls : LocalStorage)
    (chainId : Nat) (floor : Nat) (dls : Bool) :
    fetchDeploymentBlockX R mem ls chainId "" floor dls =
      some (.error .InvalidQuery, mem, ls, []) := by
  unfold fetchDeploymentBlockX
  rw [if_pos rfl]
